import Mathlib

/-!
Verification of the croncat-indexer-filter library (src/lib.rs): a wrapper
around an embedded Lua runtime that loads boolean filter predicates from
scripts declared in a configuration and applies them to streams of host
records.

The shallow embedding below translates `src/lib.rs` into Lean:

* machine state of the Lua interpreter is abstracted away for the
  value-level claims (predicates become pure fallible functions of the
  record); a second, state-threading embedding (`LFilter*`) makes the
  interpreter state explicit for the side-effect/idempotence claim;
* the filesystem (`std::fs::read_to_string`) and script evaluation
  (`Lua::load(..).eval::<Table>()`) are modelled as an environment of
  fallible functions;
* `Vec` push-accumulation and `&mut self` mutation become explicit state
  passing; `Result<_, mlua::Error>` becomes `Except MluaError _`;
* the `HashMap<String, Vec<FilterConfig>>` of chains is modelled as the
  association list of its entries in iteration order.
-/

namespace Croncat

/-- The errors surfaced by the embedded runtime (`mlua::Error`, abstracted):
typed-table-iteration conversion failures, file-read failures, script
evaluation failures and predicate runtime failures. -/
inductive MluaError where
  | fromLuaConversion (key : String)
  | fileRead (path : String)
  | scriptEval (msg : String)
  | runtime (msg : String)
deriving DecidableEq

/-- A Lua value stored in a script's module table: either a function —
modelled by its observable behaviour on the host record type (serializing
the record into Lua and calling the function yields a boolean or an
error) — or any non-callable value. -/
inductive LuaValue (T : Type) where
  | func (f : T → Except MluaError Bool)
  | other

/-- Whether a module-table value is callable. -/
def LuaValue.isFunc {T : Type} : LuaValue T → Bool
  | .func _ => true
  | .other => false

/-- `Filter` (src/lib.rs:28): a named predicate backed by a Lua function.
The `filter` field models `Filter::filter` (src/lib.rs:48): the
`lua.to_value` marshalling step and the `Function::call` invocation are
collapsed into one fallible boolean-valued function of the record. -/
structure Filter (T : Type) where
  name : String
  filter : T → Except MluaError Bool

/-- `Filter::new` (src/lib.rs:39). -/
def Filter.new {T : Type} (name : String) (f : T → Except MluaError Bool) : Filter T :=
  ⟨name, f⟩

/-- `FilterConfig` (src/lib.rs:22): declared display name and script path
(`PathBuf` modelled as the path string). -/
structure FilterConfig where
  name : String
  script : String

/-- `Config` (src/lib.rs:16): `chains` is a `HashMap<String, Vec<FilterConfig>>`,
modelled as the association list of its entries in iteration order. -/
structure Config where
  chains : List (String × List FilterConfig)

/-- The external world `load` runs against: the filesystem
(`std::fs::read_to_string`, src/lib.rs:103) and the Lua interpreter's
script evaluation (`self.runtime.load(&script).eval()`, src/lib.rs:104),
each a fallible function. A module table is the list of its
`(key, value)` pairs in Lua iteration order. -/
structure Env (T : Type) where
  read_to_string : String → Except MluaError String
  eval : String → Except MluaError (List (String × LuaValue T))

/-- One step of mlua's typed `Table::pairs::<String, Function>` iterator
(src/lib.rs:105): each entry is lazily converted, and an entry whose value
is not a function yields a `FromLuaConversionError` rather than being
skipped. -/
def pairConv {T : Type} (k : String) (v : LuaValue T) :
    Except MluaError (String × (T → Except MluaError Bool)) :=
  match v with
  | .func f => .ok (k, f)
  | .other => .error (.fromLuaConversion k)

/-- `FilterSystem` (src/lib.rs:82): the Lua runtime reference carries no
value-level information beyond the behaviour already stored in each
filter, so only the filter collection is kept as state. -/
structure FilterSystem (T : Type) where
  filters : List (Filter T)

/-- `FilterSystem::new` (src/lib.rs:92): an empty filter collection. -/
def FilterSystem.new (T : Type) : FilterSystem T := ⟨[]⟩

/-- The inner loop of `FilterSystem::load` (src/lib.rs:105-111): each pair
converted by the typed iterator becomes `Filter::new(name, filter)` pushed
onto the accumulated filter collection; a conversion failure is propagated
by `pair?`. -/
def extractGo {T : Type} (fs : List (Filter T)) :
    List (String × LuaValue T) → Except MluaError (List (Filter T))
  | [] => .ok fs
  | (k, v) :: rest =>
    match pairConv k v with
    | .error e => .error e
    | .ok (name, f) => extractGo (fs ++ [Filter.new name f]) rest

/-- The middle loop of `FilterSystem::load` (src/lib.rs:102-112) over one
chain's filter declarations: read the script file, evaluate it to a module
table, extract its entries; each `?` propagates the first error. -/
def loadScriptGo {T : Type} (env : Env T) (fs : List (Filter T)) :
    List FilterConfig → Except MluaError (List (Filter T))
  | [] => .ok fs
  | fc :: rest =>
    match env.read_to_string fc.script with
    | .error e => .error e
    | .ok script =>
      match env.eval script with
      | .error e => .error e
      | .ok module =>
        match extractGo fs module with
        | .error e => .error e
        | .ok fs' => loadScriptGo env fs' rest

/-- The outer loop of `FilterSystem::load` (src/lib.rs:101-113) over the
configuration's chains: the chain key is bound as `_chain` and never
used. -/
def loadChainsGo {T : Type} (env : Env T) (fs : List (Filter T)) :
    List (String × List FilterConfig) → Except MluaError (List (Filter T))
  | [] => .ok fs
  | (_chain, fcs) :: rest =>
    match loadScriptGo env fs fcs with
    | .error e => .error e
    | .ok fs' => loadChainsGo env fs' rest

/-- `FilterSystem::load` (src/lib.rs:100-115): the `&mut self` mutation of
`self.filters` is modelled by state passing, the updated system being
returned on success. -/
def FilterSystem.load {T : Type} (env : Env T) (s : FilterSystem T) (config : Config) :
    Except MluaError (FilterSystem T) :=
  (loadChainsGo env s.filters config.chains).map FilterSystem.mk

/-- `FilterRuntime::load` (src/lib.rs:74-78): build a fresh `FilterSystem`
over the runtime and load the configuration into it; on failure the error
is returned and the partially built system is dropped, so the caller never
receives a system. -/
def FilterRuntime.load {T : Type} (env : Env T) (config : Config) :
    Except MluaError (FilterSystem T) :=
  FilterSystem.load env (FilterSystem.new T) config

/-- The loop of `FilterSystem::filter_one` (src/lib.rs:118-126) with the
mutable `filtered` flag as accumulator; `filter.filter(..)?` propagates
the first error and `if .. { filtered = true }` is `filtered || b`. -/
def filterOneGo {T : Type} (r : T) : List (Filter T) → Bool → Except MluaError Bool
  | [], filtered => .ok filtered
  | f :: rest, filtered =>
    match f.filter r with
    | .error e => .error e
    | .ok b => filterOneGo r rest (filtered || b)

/-- `FilterSystem::filter_one` (src/lib.rs:118-126). -/
def FilterSystem.filter_one {T : Type} (s : FilterSystem T) (r : T) : Except MluaError Bool :=
  filterOneGo r s.filters false

/-- The loop of `FilterSystem::filter` (src/lib.rs:129-137) with the
`result` vector accumulated by `push`. -/
def filterGo {T : Type} (s : FilterSystem T) (result : List T) :
    List T → Except MluaError (List T)
  | [] => .ok result
  | tx :: rest =>
    match s.filter_one tx with
    | .error e => .error e
    | .ok true => filterGo s (result ++ [tx]) rest
    | .ok false => filterGo s result rest

/-- `FilterSystem::filter` (src/lib.rs:129-137). -/
def FilterSystem.filter {T : Type} (s : FilterSystem T) (values : List T) :
    Except MluaError (List T) :=
  filterGo s [] values

/-- Reading a single script and extracting its filters — the body of one
iteration of the middle loop of `FilterSystem::load`, starting from an
empty collection. Used to phrase which declarations load successfully. -/
def loadOneScript {T : Type} (env : Env T) (fc : FilterConfig) :
    Except MluaError (List (Filter T)) :=
  match env.read_to_string fc.script with
  | .error e => .error e
  | .ok script =>
    match env.eval script with
    | .error e => .error e
    | .ok module => extractGo [] module

/-- Spec-side predicate: the boolean decision `filter_one` reaches on a
record when it succeeds (`false` stands in on error; it is only used under
success hypotheses). -/
def keptB {T : Type} (s : FilterSystem T) (tx : T) : Bool :=
  match s.filter_one tx with
  | .ok b => b
  | .error _ => false

/-- Spec-side (for the load-correctness wording): the filters a module
table exports — its callable entries, as named filters, in order. -/
def moduleFilters {T : Type} : List (String × LuaValue T) → List (Filter T)
  | [] => []
  | (k, .func f) :: rest => Filter.new k f :: moduleFilters rest
  | (_, .other) :: rest => moduleFilters rest

/-- Spec-side: a configuration with every declared `name` field rewritten,
scripts untouched — used to state that the declared name is never used. -/
def renameConfig (rename : FilterConfig → String) (c : Config) : Config :=
  ⟨c.chains.map fun p => (p.1, p.2.map fun fc => ⟨rename fc, fc.script⟩)⟩

/-- The `filter_one` loop instrumented to record, in order, the filters on
which `Filter::filter` is invoked; the second component is the loop's
result. -/
def filterOneTraceGo {T : Type} (r : T) :
    List (Filter T) → Bool → List (Filter T) × Except MluaError Bool
  | [], filtered => ([], .ok filtered)
  | f :: rest, filtered =>
    match f.filter r with
    | .error e => ([f], .error e)
    | .ok b =>
      let p := filterOneTraceGo r rest (filtered || b)
      (f :: p.1, p.2)

/-- The filters `filter_one` invokes on a record, in invocation order. -/
def FilterSystem.invoked {T : Type} (s : FilterSystem T) (r : T) : List (Filter T) :=
  (filterOneTraceGo r s.filters false).1

/-!
State-threading refinement of the evaluation path, for the side-effect
claim: a Lua predicate may read and mutate the interpreter's global state
`S`, so here every `Filter::filter` call takes the current state and
returns the successor state alongside its result, exactly along the call
sequence of `filter_one`/`filter`.
-/

/-- A filter whose predicate reads and updates the interpreter state. -/
structure LFilter (S T : Type) where
  name : String
  filter : S → T → Except MluaError Bool × S

/-- A filter system over state-aware filters. -/
structure LFilterSystem (S T : Type) where
  filters : List (LFilter S T)

/-- The `filter_one` loop (src/lib.rs:118-126) with the interpreter state
threaded through each predicate call. -/
def lfilterOneGo {S T : Type} (r : T) :
    List (LFilter S T) → Bool → S → Except MluaError Bool × S
  | [], filtered, st => (.ok filtered, st)
  | f :: rest, filtered, st =>
    match f.filter st r with
    | (.error e, st') => (.error e, st')
    | (.ok b, st') => lfilterOneGo r rest (filtered || b) st'

/-- `FilterSystem::filter_one` with explicit interpreter state. -/
def LFilterSystem.filter_one {S T : Type} (s : LFilterSystem S T) (r : T) (st : S) :
    Except MluaError Bool × S :=
  lfilterOneGo r s.filters false st

/-- The `filter` loop (src/lib.rs:129-137) with explicit interpreter
state. -/
def lfilterGo {S T : Type} (s : LFilterSystem S T) (result : List T) :
    List T → S → Except MluaError (List T) × S
  | [], st => (.ok result, st)
  | tx :: rest, st =>
    match s.filter_one tx st with
    | (.error e, st') => (.error e, st')
    | (.ok true, st') => lfilterGo s (result ++ [tx]) rest st'
    | (.ok false, st') => lfilterGo s result rest st'

/-- `FilterSystem::filter` with explicit interpreter state. -/
def LFilterSystem.filter {S T : Type} (s : LFilterSystem S T) (values : List T) (st : S) :
    Except MluaError (List T) × S :=
  lfilterGo s [] values st

/-- No script side effects: no predicate of the system ever changes the
interpreter state. -/
def sideEffectFree {S T : Type} (s : LFilterSystem S T) : Prop :=
  ∀ f ∈ s.filters, ∀ st r, (f.filter st r).2 = st

/-!
Concrete instances used by the witness theorems.
-/

/-- The predicate of the demonstration filter: keep records equal to 2. -/
def demoFn : Nat → Except Croncat.MluaError Bool := fun n => .ok (n == 2)

/-- A filter that keeps the record 2. -/
def demoTrue : Filter Nat := Filter.new "isTwo" demoFn

/-- A filter that keeps nothing. -/
def demoFalse : Filter Nat := Filter.new "never" (fun _ => .ok false)

/-- A filter whose predicate always raises a script error. -/
def demoErr : Filter Nat := Filter.new "boom" (fun _ => .error (.runtime "boom"))

/-- A two-filter system with no failing predicate. -/
def demoSys : FilterSystem Nat := ⟨[demoFalse, demoTrue]⟩

/-- A system whose middle filter always fails, after a filter that accepts
the record 2. -/
def demoSys2 : FilterSystem Nat := ⟨[demoTrue, demoErr, demoFalse]⟩

/-- A filter failing exactly on the record 3 and keeping the record 2. -/
def demoSel : Filter Nat := Filter.new "sel" fun n =>
  if n == 3 then .error (.runtime "boom") else .ok (n == 2)

/-- The system of the single filter `demoSel`. -/
def demoSelSys : FilterSystem Nat := ⟨[demoSel]⟩

/-- A module table exporting one callable entry under the key "isTwo". -/
def demoModule : List (String × LuaValue Nat) := [("isTwo", .func demoFn)]

/-- An environment in which every script file reads successfully and every
script evaluates to `demoModule`. -/
def demoEnv : Env Nat := ⟨fun _ => .ok "src", fun _ => .ok demoModule⟩

/-- A configuration with one chain declaring one script. -/
def demoConfig : Config := ⟨[("uni-5", [⟨"Testnet Manager", "filters/a.lua"⟩])]⟩

/-- The system `demoConfig` loads on top of `demoSys` under `demoEnv`. -/
def demoLoaded : FilterSystem Nat := ⟨[demoFalse, demoTrue, Filter.new "isTwo" demoFn]⟩

/-- An environment whose scripts evaluate to a module table whose only
entry is not callable. -/
def cexEnv : Env Nat := ⟨fun _ => .ok "src", fun _ => .ok [("g", LuaValue.other)]⟩

/-- A configuration with one chain declaring one script (whose module, in
`cexEnv`, has a single non-callable entry). -/
def cexConfig : Config := ⟨[("uni-5", [⟨"Bad", "filters/bad.lua"⟩])]⟩

/-- An environment in which only the script file "good.lua" exists; it
evaluates to `demoModule`. -/
def cex8Env : Env Nat :=
  ⟨fun p => if p = "good.lua" then .ok "src" else .error (.fileRead p),
   fun _ => .ok demoModule⟩

/-- A configuration whose first chain declares a readable script and whose
second chain declares a missing one. -/
def cex8Config : Config :=
  ⟨[("c1", [⟨"A", "good.lua"⟩]), ("c2", [⟨"B", "missing.lua"⟩])]⟩

/-- A state-aware filter keeping records at least as large as the current
interpreter state, never touching the state. -/
def demoLFilter : LFilter Nat Nat := ⟨"ge", fun st n => (.ok (decide (st ≤ n)), st)⟩

/-- The state-aware system of the single filter `demoLFilter`. -/
def demoLSys : LFilterSystem Nat Nat := ⟨[demoLFilter]⟩

/-!
Lemmas about the `filter_one` loop.
-/

/-- When the `filter_one` loop returns a boolean, that boolean is the
disjunction of the accumulator and the filters' individual verdicts. -/
theorem filterOneGo_ok_iff {T : Type} (r : T) (fs : List (Filter T)) :
    ∀ (acc c : Bool), filterOneGo r fs acc = .ok c →
      (c = true ↔ acc = true ∨ ∃ f ∈ fs, f.filter r = .ok true) := by
  induction fs with
  | nil =>
    intro acc c h
    simp only [filterOneGo] at h
    injection h with h
    subst h
    simp
  | cons f rest ih =>
    intro acc c h
    simp only [filterOneGo] at h
    cases hf : f.filter r with
    | error e => rw [hf] at h; cases h
    | ok b =>
      rw [hf] at h
      rw [ih (acc || b) c h]
      simp only [List.mem_cons, Bool.or_eq_true]
      constructor
      · rintro ((h1 | h1) | ⟨g, hg, hgt⟩)
        · exact Or.inl h1
        · exact Or.inr ⟨f, Or.inl rfl, by rw [hf, h1]⟩
        · exact Or.inr ⟨g, Or.inr hg, hgt⟩
      · rintro (h1 | ⟨g, rfl | hg, hgt⟩)
        · exact Or.inl (Or.inl h1)
        · rw [hf] at hgt
          injection hgt with hb
          exact Or.inl (Or.inr hb)
        · exact Or.inr ⟨g, hg, hgt⟩

/-- The `filter_one` loop succeeds when every filter's call succeeds. -/
theorem filterOneGo_isOk {T : Type} (r : T) (fs : List (Filter T)) :
    ∀ acc, (∀ f ∈ fs, ∃ b, f.filter r = .ok b) →
      ∃ c, filterOneGo r fs acc = .ok c := by
  induction fs with
  | nil => exact fun acc _ => ⟨acc, rfl⟩
  | cons f rest ih =>
    intro acc hok
    obtain ⟨b, hb⟩ := hok f (List.mem_cons_self f rest)
    obtain ⟨c, hc⟩ := ih (acc || b) fun g hg => hok g (List.mem_cons_of_mem _ hg)
    refine ⟨c, ?_⟩
    simp only [filterOneGo]
    rw [hb]
    exact hc

/-- The `filter_one` loop propagates the first failing call: if every
filter before `f` succeeds and `f` fails, the loop returns `f`'s error,
whatever comes after `f` and whatever the accumulator holds. -/
theorem filterOneGo_firstError {T : Type} (r : T) (pre : List (Filter T)) :
    ∀ (f : Filter T) (post : List (Filter T)) (acc : Bool) (e : MluaError),
      (∀ g ∈ pre, ∃ b, g.filter r = .ok b) → f.filter r = .error e →
      filterOneGo r (pre ++ f :: post) acc = .error e := by
  induction pre with
  | nil =>
    intro f post acc e _ hf
    simp only [List.nil_append, filterOneGo]
    rw [hf]
  | cons g pre ih =>
    intro f post acc e hok hf
    obtain ⟨b, hb⟩ := hok g (List.mem_cons_self g pre)
    simp only [List.cons_append, filterOneGo]
    rw [hb]
    exact ih f post (acc || b) e (fun g' hg' => hok g' (List.mem_cons_of_mem _ hg')) hf

/-- Claim C1: for every loaded filter system and record, `filter_one`
returns `true` exactly when at least one registered filter's predicate
returns `true` for the record (the converse direction holding whenever no
predicate call fails), and with an empty filter collection `filter_one`
returns `false` on every record. -/
theorem filter_one_or_aggregation {T : Type} (s : FilterSystem T) (r : T) :
    (s.filter_one r = .ok true → ∃ f ∈ s.filters, f.filter r = .ok true) ∧
    ((∀ f ∈ s.filters, ∃ b, f.filter r = .ok b) →
      (∃ f ∈ s.filters, f.filter r = .ok true) → s.filter_one r = .ok true) ∧
    (s.filters = [] → s.filter_one r = .ok false) := by
  refine ⟨?_, ?_, ?_⟩
  · intro h
    rcases (filterOneGo_ok_iff r s.filters false true h).mp rfl with h1 | h1
    · cases h1
    · exact h1
  · intro hok hex
    obtain ⟨c, hc⟩ := filterOneGo_isOk r s.filters false hok
    have hct : c = true := (filterOneGo_ok_iff r s.filters false c hc).mpr (Or.inr hex)
    show filterOneGo r s.filters false = .ok true
    rw [hc, hct]
  · intro h
    show filterOneGo r s.filters false = .ok false
    rw [h]
    rfl

/-- Witness for C1: on the two-filter demonstration system, every
predicate call succeeds on the record 2, one filter accepts it, and
`filter_one` indeed returns `true`. -/
theorem filter_one_or_aggregation_witness : demoSys.filter_one 2 = .ok true := by
  refine (filter_one_or_aggregation demoSys 2).2.1 ?_ ?_
  · intro f hf
    rcases List.mem_cons.mp hf with rfl | hf'
    · exact ⟨false, rfl⟩
    · rcases List.mem_cons.mp hf' with rfl | hf''
      · exact ⟨true, rfl⟩
      · cases hf''
  · exact ⟨demoTrue, List.mem_cons_of_mem _ (List.mem_cons_self _ _), rfl⟩

/-!
Lemmas about the batch `filter` loop.
-/

/-- When the batch loop returns a list, that list is the accumulator
followed by the input records whose `filter_one` verdict is `true`, in
input order. -/
theorem filterGo_ok {T : Type} (s : FilterSystem T) (values : List T) :
    ∀ (acc out : List T), filterGo s acc values = .ok out →
      out = acc ++ values.filter (keptB s) := by
  induction values with
  | nil =>
    intro acc out h
    simp only [filterGo] at h
    injection h with h
    subst h
    simp
  | cons tx rest ih =>
    intro acc out h
    simp only [filterGo] at h
    cases htx : s.filter_one tx with
    | error e => rw [htx] at h; cases h
    | ok b =>
      have hk : keptB s tx = b := by simp [keptB, htx]
      cases b with
      | true =>
        rw [htx] at h
        rw [ih (acc ++ [tx]) out h]
        simp [List.filter_cons, hk]
      | false =>
        rw [htx] at h
        rw [ih acc out h]
        simp [List.filter_cons, hk]

/-- The batch loop propagates the first failing `filter_one` call: if
every record before `tx` evaluates successfully and `tx`'s evaluation
fails, the loop returns that error, whatever records follow and whatever
the accumulator already retained. -/
theorem filterGo_firstError {T : Type} (s : FilterSystem T) (pre : List T) :
    ∀ (tx : T) (post acc : List T) (e : MluaError),
      (∀ u ∈ pre, ∃ b, s.filter_one u = .ok b) → s.filter_one tx = .error e →
      filterGo s acc (pre ++ tx :: post) = .error e := by
  induction pre with
  | nil =>
    intro tx post acc e _ htx
    simp only [List.nil_append, filterGo]
    rw [htx]
  | cons u pre ih =>
    intro tx post acc e hok htx
    obtain ⟨b, hb⟩ := hok u (List.mem_cons_self u pre)
    simp only [List.cons_append, filterGo]
    rw [hb]
    cases b with
    | true => exact ih tx post (acc ++ [u]) e (fun v hv => hok v (List.mem_cons_of_mem _ hv)) htx
    | false => exact ih tx post acc e (fun v hv => hok v (List.mem_cons_of_mem _ hv)) htx

/-- Claim C2: when `filter` returns an output sequence, it is exactly the
subsequence of the inputs, in their original relative order, on which
`filter_one` decides `true` — the very records of the input, never
reordered or duplicated. -/
theorem filter_keeps_subsequence {T : Type} (s : FilterSystem T) (values out : List T)
    (h : s.filter values = .ok out) :
    out = values.filter (keptB s) ∧ List.Sublist out values := by
  have h1 := filterGo_ok s values [] out h
  rw [List.nil_append] at h1
  refine ⟨h1, ?_⟩
  rw [h1]
  exact List.filter_sublist values

/-- Witness for C2: on the demonstration system, filtering `[1, 2, 3]`
returns `[2]`, which is the `keptB`-filtered subsequence of the input. -/
theorem filter_keeps_subsequence_witness :
    [2] = [1, 2, 3].filter (keptB demoSys) ∧ List.Sublist [2] [1, 2, 3] :=
  filter_keeps_subsequence demoSys [1, 2, 3] [2] rfl

/-- Claim C7: if some `filter_one` call fails during a batch `filter`, the
whole batch fails with the first such error — no output sequence, not even
a partial one, is returned, and the records after the failing one are
irrelevant. -/
theorem filter_batch_atomic_failure {T : Type} (s : FilterSystem T) (pre : List T)
    (tx : T) (post : List T) (e : MluaError)
    (hok : ∀ u ∈ pre, ∃ b, s.filter_one u = .ok b) (htx : s.filter_one tx = .error e) :
    s.filter (pre ++ tx :: post) = .error e :=
  filterGo_firstError s pre tx post [] e hok htx

/-- Witness for C7: on the selective demonstration system, records 1 and 2
evaluate successfully, record 3 raises, and the whole batch
`[1, 2, 3, 4]` fails with that error. -/
theorem filter_batch_atomic_failure_witness :
    demoSelSys.filter [1, 2, 3, 4] = .error (.runtime "boom") := by
  refine filter_batch_atomic_failure demoSelSys [1, 2] 3 [4] (.runtime "boom") ?_ rfl
  intro u hu
  rcases List.mem_cons.mp hu with rfl | hu'
  · exact ⟨false, rfl⟩
  · rcases List.mem_cons.mp hu' with rfl | hu''
    · exact ⟨true, rfl⟩
    · cases hu''

/-!
Lemmas about the instrumented `filter_one` loop.
-/

/-- The instrumented loop computes the same result as the plain loop. -/
theorem filterOneTraceGo_snd {T : Type} (r : T) (fs : List (Filter T)) :
    ∀ acc, (filterOneTraceGo r fs acc).2 = filterOneGo r fs acc := by
  induction fs with
  | nil => intro acc; rfl
  | cons f rest ih =>
    intro acc
    simp only [filterOneTraceGo, filterOneGo]
    cases hf : f.filter r with
    | error e => rfl
    | ok b => exact ih (acc || b)

/-- When every filter's call succeeds, the loop invokes every filter of
the collection, in order — regardless of how many returned `true`. -/
theorem filterOneTraceGo_fst_ok {T : Type} (r : T) (fs : List (Filter T)) :
    ∀ acc, (∀ f ∈ fs, ∃ b, f.filter r = .ok b) →
      (filterOneTraceGo r fs acc).1 = fs := by
  induction fs with
  | nil => intro acc _; rfl
  | cons f rest ih =>
    intro acc hok
    obtain ⟨b, hb⟩ := hok f (List.mem_cons_self f rest)
    simp only [filterOneTraceGo]
    rw [hb]
    show f :: (filterOneTraceGo r rest (acc || b)).1 = f :: rest
    rw [ih (acc || b) fun g hg => hok g (List.mem_cons_of_mem _ hg)]

/-- When the first failing filter is `f`, the loop invokes exactly the
filters up to and including `f` and none of those after it. -/
theorem filterOneTraceGo_firstError {T : Type} (r : T) (pre : List (Filter T)) :
    ∀ (f : Filter T) (post : List (Filter T)) (acc : Bool) (e : MluaError),
      (∀ g ∈ pre, ∃ b, g.filter r = .ok b) → f.filter r = .error e →
      (filterOneTraceGo r (pre ++ f :: post) acc).1 = pre ++ [f] := by
  induction pre with
  | nil =>
    intro f post acc e _ hf
    simp only [List.nil_append, filterOneTraceGo]
    rw [hf]
  | cons g pre ih =>
    intro f post acc e hok hf
    obtain ⟨b, hb⟩ := hok g (List.mem_cons_self g pre)
    simp only [List.cons_append, filterOneTraceGo]
    rw [hb]
    show g :: (filterOneTraceGo r (pre ++ f :: post) (acc || b)).1 = g :: (pre ++ [f])
    rw [ih f post (acc || b) e (fun g' hg' => hok g' (List.mem_cons_of_mem _ hg')) hf]

/-- Claim C6: `filter_one` never short-circuits on a `true` result — when
no call fails it invokes every filter of the collection even after one has
returned `true` — and when some call fails it surfaces the first failure
(even if an earlier filter returned `true`) without invoking the filters
after the failing one. -/
theorem filter_one_no_short_circuit {T : Type} (s : FilterSystem T) (r : T) :
    (s.filter_one r = (filterOneTraceGo r s.filters false).2) ∧
    ((∀ f ∈ s.filters, ∃ b, f.filter r = .ok b) → s.invoked r = s.filters) ∧
    (∀ (pre : List (Filter T)) (f : Filter T) (post : List (Filter T)) (e : MluaError),
      s.filters = pre ++ f :: post → (∀ g ∈ pre, ∃ b, g.filter r = .ok b) →
      f.filter r = .error e →
      s.filter_one r = .error e ∧ s.invoked r = pre ++ [f]) := by
  refine ⟨(filterOneTraceGo_snd r s.filters false).symm, ?_, ?_⟩
  · exact fun hok => filterOneTraceGo_fst_ok r s.filters false hok
  · intro pre f post e hsplit hok hf
    constructor
    · show filterOneGo r s.filters false = .error e
      rw [hsplit]
      exact filterOneGo_firstError r pre f post false e hok hf
    · show (filterOneTraceGo r s.filters false).1 = pre ++ [f]
      rw [hsplit]
      exact filterOneTraceGo_firstError r pre f post false e hok hf

/-- Witness for C6: in the system whose first filter accepts the record 2
and whose second always raises, `filter_one` surfaces the error even
though a filter already returned `true`, and exactly the first two filters
are invoked; in the never-failing system every filter is invoked. -/
theorem filter_one_no_short_circuit_witness :
    demoSys2.filter_one 2 = .error (.runtime "boom") ∧
    demoSys2.invoked 2 = [demoTrue, demoErr] ∧
    demoSys.invoked 2 = demoSys.filters := by
  have hpre : ∀ g ∈ [demoTrue], ∃ b, g.filter (2 : Nat) = .ok b := by
    intro g hg
    rcases List.mem_cons.mp hg with rfl | hg'
    · exact ⟨true, rfl⟩
    · cases hg'
  have h2 := (filter_one_no_short_circuit demoSys2 2).2.2 [demoTrue] demoErr [demoFalse]
      (.runtime "boom") rfl hpre rfl
  have hall : ∀ f ∈ demoSys.filters, ∃ b, f.filter (2 : Nat) = .ok b := by
    intro f hf
    rcases List.mem_cons.mp hf with rfl | hf'
    · exact ⟨false, rfl⟩
    · rcases List.mem_cons.mp hf' with rfl | hf''
      · exact ⟨true, rfl⟩
      · cases hf''
  exact ⟨h2.1, h2.2, (filter_one_no_short_circuit demoSys 2).2.1 hall⟩

/-!
Lemmas about the load loops.
-/

/-- Extraction only ever appends to the accumulated collection, and what
it appends (or the error it raises) does not depend on the accumulator. -/
theorem extractGo_acc {T : Type} (m : List (String × LuaValue T)) :
    ∀ fs, extractGo fs m = (extractGo ([] : List (Filter T)) m).map (fs ++ ·) := by
  induction m with
  | nil => intro fs; simp [extractGo, Except.map]
  | cons p rest ih =>
    obtain ⟨k, v⟩ := p
    intro fs
    cases v with
    | other => rfl
    | func f =>
      show extractGo (fs ++ [Filter.new k f]) rest
          = (extractGo ([] ++ [Filter.new k f]) rest).map (fs ++ ·)
      rw [List.nil_append, ih (fs ++ [Filter.new k f]), ih [Filter.new k f]]
      cases extractGo ([] : List (Filter T)) rest with
      | error e => rfl
      | ok l => simp [Except.map, List.append_assoc]

/-- One iteration of the middle load loop is `loadOneScript` followed by
appending its filters to the accumulated collection. -/
theorem loadScriptGo_cons {T : Type} (env : Env T) (fs : List (Filter T))
    (fc : FilterConfig) (rest : List FilterConfig) :
    loadScriptGo env fs (fc :: rest)
      = match loadOneScript env fc with
        | .error e => .error e
        | .ok l => loadScriptGo env (fs ++ l) rest := by
  cases hr : env.read_to_string fc.script with
  | error e => simp only [loadScriptGo, loadOneScript, hr]
  | ok script =>
    cases he : env.eval script with
    | error e => simp only [loadScriptGo, loadOneScript, hr, he]
    | ok module =>
      simp only [loadScriptGo, loadOneScript, hr, he]
      rw [extractGo_acc module fs]
      cases extractGo ([] : List (Filter T)) module with
      | error e => rfl
      | ok l => rfl

/-- The middle load loop only ever appends to the accumulated collection,
independently of what the accumulator holds. -/
theorem loadScriptGo_acc {T : Type} (env : Env T) (scripts : List FilterConfig) :
    ∀ fs, loadScriptGo env fs scripts
        = (loadScriptGo env ([] : List (Filter T)) scripts).map (fs ++ ·) := by
  induction scripts with
  | nil => intro fs; simp [loadScriptGo, Except.map]
  | cons fc rest ih =>
    intro fs
    rw [loadScriptGo_cons, loadScriptGo_cons]
    cases loadOneScript env fc with
    | error e => rfl
    | ok l =>
      show loadScriptGo env (fs ++ l) rest
          = (loadScriptGo env ([] ++ l) rest).map (fs ++ ·)
      rw [List.nil_append, ih (fs ++ l), ih l]
      cases loadScriptGo env ([] : List (Filter T)) rest with
      | error e => rfl
      | ok l2 => simp [Except.map, List.append_assoc]

/-- Loading a concatenation of script lists is loading the first list and
then the second from where the first left off. -/
theorem loadScriptGo_append {T : Type} (env : Env T) (a : List FilterConfig) :
    ∀ (b : List FilterConfig) (fs : List (Filter T)),
      loadScriptGo env fs (a ++ b)
        = match loadScriptGo env fs a with
          | .error e => .error e
          | .ok fs' => loadScriptGo env fs' b := by
  induction a with
  | nil => intro b fs; rfl
  | cons fc rest ih =>
    intro b fs
    rw [List.cons_append, loadScriptGo_cons, loadScriptGo_cons]
    cases loadOneScript env fc with
    | error e => rfl
    | ok l => exact ih b (fs ++ l)

/-- The outer load loop behaves exactly as the middle loop run on the
concatenation of all chains' declaration lists: the chain keys play no
role. -/
theorem loadChainsGo_flatten {T : Type} (env : Env T)
    (chains : List (String × List FilterConfig)) :
    ∀ fs, loadChainsGo env fs chains = loadScriptGo env fs (chains.map Prod.snd).flatten := by
  induction chains with
  | nil => intro fs; rfl
  | cons p rest ih =>
    obtain ⟨c, fcs⟩ := p
    intro fs
    simp only [loadChainsGo, List.map_cons, List.flatten_cons]
    rw [loadScriptGo_append]
    cases loadScriptGo env fs fcs with
    | error e => rfl
    | ok fs' => exact ih fs'

/-- Rewriting every chain key leaves the outer load loop unchanged. -/
theorem loadChainsGo_keyIrrel {T : Type} (env : Env T)
    (chains : List (String × List FilterConfig)) (g : String → String) :
    ∀ fs, loadChainsGo env fs (chains.map fun p => (g p.1, p.2)) = loadChainsGo env fs chains := by
  induction chains with
  | nil => intro fs; rfl
  | cons p rest ih =>
    obtain ⟨c, fcs⟩ := p
    intro fs
    simp only [List.map_cons, loadChainsGo]
    cases loadScriptGo env fs fcs with
    | error e => rfl
    | ok fs' => exact ih fs'

/-- Rewriting every declared filter name, scripts untouched, leaves the
middle load loop unchanged: the `name` field is never read. -/
theorem loadScriptGo_nameIrrel {T : Type} (env : Env T) (scripts : List FilterConfig)
    (rename : FilterConfig → String) :
    ∀ fs, loadScriptGo env fs (scripts.map fun fc => ⟨rename fc, fc.script⟩)
        = loadScriptGo env fs scripts := by
  induction scripts with
  | nil => intro fs; rfl
  | cons fc rest ih =>
    intro fs
    simp only [List.map_cons]
    cases hr : env.read_to_string fc.script with
    | error e => simp only [loadScriptGo, hr]
    | ok script =>
      cases he : env.eval script with
      | error e => simp only [loadScriptGo, hr, he]
      | ok module =>
        cases hx : extractGo fs module with
        | error e => simp only [loadScriptGo, hr, he, hx]
        | ok fs' =>
          simp only [loadScriptGo, hr, he, hx]
          exact ih fs'

/-- Rewriting every declared filter name leaves the outer load loop
unchanged. -/
theorem loadChainsGo_nameIrrel {T : Type} (env : Env T)
    (chains : List (String × List FilterConfig)) (rename : FilterConfig → String) :
    ∀ fs, loadChainsGo env fs
        (chains.map fun p => (p.1, p.2.map fun fc => ⟨rename fc, fc.script⟩))
      = loadChainsGo env fs chains := by
  induction chains with
  | nil => intro fs; rfl
  | cons p rest ih =>
    obtain ⟨c, fcs⟩ := p
    intro fs
    simp only [List.map_cons, loadChainsGo]
    rw [loadScriptGo_nameIrrel]
    cases loadScriptGo env fs fcs with
    | error e => rfl
    | ok fs' => exact ih fs'

/-- Successful extraction names every produced filter after its module
key, in module order, after the accumulated collection. -/
theorem extractGo_names {T : Type} (m : List (String × LuaValue T)) :
    ∀ (fs l : List (Filter T)), extractGo fs m = .ok l →
      l.map Filter.name = fs.map Filter.name ++ m.map Prod.fst := by
  induction m with
  | nil =>
    intro fs l h
    simp only [extractGo] at h
    injection h with h
    subst h
    simp
  | cons p rest ih =>
    obtain ⟨k, v⟩ := p
    intro fs l h
    cases v with
    | other => cases h
    | func f =>
      have h' : extractGo (fs ++ [Filter.new k f]) rest = .ok l := h
      rw [ih (fs ++ [Filter.new k f]) l h']
      simp [Filter.new]

/-- Claim C3: during load every constructed filter is named after its
module-mapping key — rewriting every declared `name` field of the
configuration changes nothing about the load result, and the filters a
successful extraction appends carry exactly the module keys as names. -/
theorem filter_names_from_module_keys {T : Type} (env : Env T) (s : FilterSystem T)
    (config : Config) (rename : FilterConfig → String)
    (m : List (String × LuaValue T)) (fs l : List (Filter T)) :
    FilterSystem.load env s (renameConfig rename config) = FilterSystem.load env s config ∧
    (extractGo fs m = .ok l → l.map Filter.name = fs.map Filter.name ++ m.map Prod.fst) := by
  constructor
  · show (loadChainsGo env s.filters (renameConfig rename config).chains).map FilterSystem.mk
        = (loadChainsGo env s.filters config.chains).map FilterSystem.mk
    rw [show (renameConfig rename config).chains
        = config.chains.map (fun p => (p.1, p.2.map fun fc => ⟨rename fc, fc.script⟩)) from rfl]
    rw [loadChainsGo_nameIrrel]
  · exact extractGo_names m fs l

/-- Witness for C3: renaming the declared name of the demonstration
configuration leaves the load result unchanged, and the filter extracted
from the demonstration module is named after the module key "isTwo", not
after the declared "Testnet Manager". -/
theorem filter_names_from_module_keys_witness :
    FilterSystem.load demoEnv (FilterSystem.new Nat) (renameConfig (fun _ => "X") demoConfig)
      = FilterSystem.load demoEnv (FilterSystem.new Nat) demoConfig ∧
    [Filter.new "isTwo" demoFn].map Filter.name
      = ([] : List (Filter Nat)).map Filter.name ++ demoModule.map Prod.fst := by
  have h := filter_names_from_module_keys demoEnv (FilterSystem.new Nat) demoConfig
      (fun _ => "X") demoModule [] [Filter.new "isTwo" demoFn]
  exact ⟨h.1, h.2 rfl⟩

/-- Claim C4: load flattens the filters of all chains into the one filter
collection and ignores the chain key entirely — rewriting every chain key
changes nothing, and loading a configuration is the same as loading the
single chain holding the concatenation of all chains' declarations, so
every loaded filter ends up in the one collection evaluation applies to
every record. -/
theorem chains_flattened_and_key_ignored {T : Type} (env : Env T) (s : FilterSystem T)
    (chains : List (String × List FilterConfig)) (g : String → String) :
    FilterSystem.load env s ⟨chains.map fun p => (g p.1, p.2)⟩
      = FilterSystem.load env s ⟨chains⟩ ∧
    FilterSystem.load env s ⟨chains⟩
      = FilterSystem.load env s ⟨[("", (chains.map Prod.snd).flatten)]⟩ := by
  constructor
  · show (loadChainsGo env s.filters (chains.map fun p => (g p.1, p.2))).map FilterSystem.mk
        = (loadChainsGo env s.filters chains).map FilterSystem.mk
    rw [loadChainsGo_keyIrrel]
  · show (loadChainsGo env s.filters chains).map FilterSystem.mk
        = (loadChainsGo env s.filters [("", (chains.map Prod.snd).flatten)]).map FilterSystem.mk
    rw [loadChainsGo_flatten]
    congr 1
    show loadScriptGo env s.filters (chains.map Prod.snd).flatten
        = loadChainsGo env s.filters [("", (chains.map Prod.snd).flatten)]
    cases hres : loadScriptGo env s.filters (chains.map Prod.snd).flatten with
    | error e => simp only [loadChainsGo, hres]
    | ok fs' => simp only [loadChainsGo, hres]

/-- When every module entry is callable, extraction succeeds and appends
exactly the module's filters. -/
theorem extractGo_allCallable {T : Type} (m : List (String × LuaValue T)) :
    ∀ fs, (∀ p ∈ m, p.2.isFunc = true) → extractGo fs m = .ok (fs ++ moduleFilters m) := by
  induction m with
  | nil => intro fs _; simp [extractGo, moduleFilters]
  | cons p rest ih =>
    obtain ⟨k, v⟩ := p
    intro fs hc
    cases v with
    | other =>
      have := hc (k, .other) (List.mem_cons_self _ _)
      simp [LuaValue.isFunc] at this
    | func f =>
      show extractGo (fs ++ [Filter.new k f]) rest
          = .ok (fs ++ moduleFilters ((k, .func f) :: rest))
      rw [ih (fs ++ [Filter.new k f]) fun q hq => hc q (List.mem_cons_of_mem _ hq)]
      simp [moduleFilters, List.append_assoc]

/-- The first non-callable module entry aborts extraction with a
conversion error naming its key. -/
theorem extractGo_firstNonCallable {T : Type} (pre : List (String × LuaValue T)) :
    ∀ (k : String) (post : List (String × LuaValue T)) (fs : List (Filter T)),
      (∀ p ∈ pre, p.2.isFunc = true) →
      extractGo fs (pre ++ (k, LuaValue.other) :: post) = .error (.fromLuaConversion k) := by
  induction pre with
  | nil => intro k post fs _; rfl
  | cons p pre ih =>
    obtain ⟨k', v⟩ := p
    intro k post fs hc
    cases v with
    | other =>
      have := hc (k', .other) (List.mem_cons_self _ _)
      simp [LuaValue.isFunc] at this
    | func f =>
      show extractGo (fs ++ [Filter.new k' f]) (pre ++ (k, LuaValue.other) :: post)
          = .error (.fromLuaConversion k)
      exact ih k post (fs ++ [Filter.new k' f]) fun q hq => hc q (List.mem_cons_of_mem _ hq)

/-- When every script of a declaration list reads, evaluates to its module
table, and that table is all-callable, the middle load loop succeeds and
appends the union, in declaration order, of the modules' filters. -/
theorem loadScriptGo_union {T : Type} (env : Env T)
    (mods : FilterConfig → List (String × LuaValue T)) (scripts : List FilterConfig) :
    ∀ fs, (∀ fc ∈ scripts, ∃ src, env.read_to_string fc.script = .ok src ∧
        env.eval src = .ok (mods fc) ∧ ∀ p ∈ mods fc, p.2.isFunc = true) →
      loadScriptGo env fs scripts
        = .ok (fs ++ (scripts.map fun fc => moduleFilters (mods fc)).flatten) := by
  induction scripts with
  | nil => intro fs _; simp [loadScriptGo]
  | cons fc rest ih =>
    intro fs h
    obtain ⟨src, hr, he, hcall⟩ := h fc (List.mem_cons_self _ _)
    have hone : loadOneScript env fc = .ok (moduleFilters (mods fc)) := by
      simp only [loadOneScript, hr, he]
      exact extractGo_allCallable (mods fc) [] hcall
    rw [loadScriptGo_cons, hone]
    show loadScriptGo env (fs ++ moduleFilters (mods fc)) rest
        = .ok (fs ++ ((fc :: rest).map fun fc' => moduleFilters (mods fc')).flatten)
    rw [ih (fs ++ moduleFilters (mods fc)) fun fc' h' => h fc' (List.mem_cons_of_mem _ h')]
    simp [List.append_assoc]

/-- Counterexample to C5 as stated: in an environment whose script
evaluates to a module table with a single non-callable entry, load does
not silently skip the entry and return a system — it fails with the
conversion error for that entry. -/
theorem noncallable_skipped_cex :
    FilterRuntime.load cexEnv cexConfig = .error (.fromLuaConversion "g") ∧
    FilterRuntime.load cexEnv cexConfig ≠ .ok (FilterSystem.new Nat) := by
  refine ⟨rfl, ?_⟩
  intro h
  rw [show FilterRuntime.load cexEnv cexConfig
      = .error (.fromLuaConversion "g") from rfl] at h
  exact Except.noConfusion h

/-- Claim C5 (amended): module-mapping entries whose value is not callable
are not skipped — the first such entry aborts extraction (and hence load)
with a conversion error naming its key; when every entry of every module
mapping is callable, every callable is registered and a successful load's
collection holds exactly the union, over all declared scripts in order, of
the modules' exported callables. -/
theorem noncallable_entries_abort_load {T : Type} (env : Env T)
    (mods : FilterConfig → List (String × LuaValue T)) (scripts : List FilterConfig)
    (m pre post : List (String × LuaValue T)) (k : String) (fs : List (Filter T)) :
    ((∀ p ∈ m, p.2.isFunc = true) → extractGo fs m = .ok (fs ++ moduleFilters m)) ∧
    (m = pre ++ (k, LuaValue.other) :: post → (∀ p ∈ pre, p.2.isFunc = true) →
      extractGo fs m = .error (.fromLuaConversion k)) ∧
    ((∀ fc ∈ scripts, ∃ src, env.read_to_string fc.script = .ok src ∧
        env.eval src = .ok (mods fc) ∧ ∀ p ∈ mods fc, p.2.isFunc = true) →
      loadScriptGo env fs scripts
        = .ok (fs ++ (scripts.map fun fc => moduleFilters (mods fc)).flatten)) := by
  refine ⟨extractGo_allCallable m fs, ?_, loadScriptGo_union env mods scripts fs⟩
  intro hm hc
  rw [hm]
  exact extractGo_firstNonCallable pre k post fs hc

/-- Witness for the amended C5: the all-callable demonstration module
extracts to exactly its one filter, the single non-callable module aborts
with the conversion error for its key, and loading the demonstration
declaration list yields exactly the union of its module's callables. -/
theorem noncallable_entries_abort_load_witness :
    extractGo ([] : List (Filter Nat)) demoModule = .ok ([] ++ moduleFilters demoModule) ∧
    extractGo ([] : List (Filter Nat)) [("g", LuaValue.other)]
      = .error (.fromLuaConversion "g") ∧
    loadScriptGo demoEnv ([] : List (Filter Nat)) [⟨"Testnet Manager", "filters/a.lua"⟩]
      = .ok ([] ++ ([(⟨"Testnet Manager", "filters/a.lua"⟩ : FilterConfig)].map
          fun _ => moduleFilters demoModule).flatten) := by
  have hcall : ∀ p ∈ demoModule, p.2.isFunc = true := by
    intro p hp
    rcases List.mem_cons.mp hp with rfl | hp'
    · rfl
    · cases hp'
  refine ⟨(noncallable_entries_abort_load demoEnv (fun _ => demoModule)
      [⟨"Testnet Manager", "filters/a.lua"⟩] demoModule [] [] "g" []).1 hcall,
    (noncallable_entries_abort_load demoEnv (fun _ => demoModule)
      [⟨"Testnet Manager", "filters/a.lua"⟩] [("g", LuaValue.other)] [] [] "g" []).2.1
      rfl (fun p hp => absurd hp (List.not_mem_nil p)),
    (noncallable_entries_abort_load demoEnv (fun _ => demoModule)
      [⟨"Testnet Manager", "filters/a.lua"⟩] demoModule [] [] "g" []).2.2 ?_⟩
  intro fc hfc
  exact ⟨"src", rfl, rfl, hcall⟩

/-- When every script of a declaration list loads successfully, the middle
load loop succeeds. -/
theorem loadScriptGo_allOk {T : Type} (env : Env T) (scripts : List FilterConfig) :
    ∀ fs, (∀ fc ∈ scripts, ∃ l, loadOneScript env fc = .ok l) →
      ∃ fs', loadScriptGo env fs scripts = .ok fs' := by
  induction scripts with
  | nil => intro fs _; exact ⟨fs, rfl⟩
  | cons fc rest ih =>
    intro fs h
    obtain ⟨l, hl⟩ := h fc (List.mem_cons_self _ _)
    obtain ⟨fs', h'⟩ := ih (fs ++ l) fun fc' hf => h fc' (List.mem_cons_of_mem _ hf)
    refine ⟨fs', ?_⟩
    rw [loadScriptGo_cons, hl]
    exact h'

/-- The middle load loop propagates the first failing script: if every
declaration before `fc` loads successfully and `fc`'s load fails, the loop
returns that error, whatever declarations follow. -/
theorem loadScriptGo_errorAt {T : Type} (env : Env T) (pre : List FilterConfig) :
    ∀ (fc : FilterConfig) (post : List FilterConfig) (fs : List (Filter T)) (e : MluaError),
      (∀ fc' ∈ pre, ∃ l, loadOneScript env fc' = .ok l) → loadOneScript env fc = .error e →
      loadScriptGo env fs (pre ++ fc :: post) = .error e := by
  induction pre with
  | nil =>
    intro fc post fs e _ hfc
    rw [List.nil_append, loadScriptGo_cons, hfc]
  | cons fc0 pre ih =>
    intro fc post fs e hok hfc
    obtain ⟨l, hl⟩ := hok fc0 (List.mem_cons_self _ _)
    rw [List.cons_append, loadScriptGo_cons, hl]
    exact ih fc post (fs ++ l) e (fun fc' hf => hok fc' (List.mem_cons_of_mem _ hf)) hfc

/-- Claim C8: if reading or evaluating any script fails during load, the
runtime's load aborts with that first error — the result is the error
itself, so no partially built filter system reaches the caller. The
hypothesis pins `fc` as the first failing declaration (every declaration
of the earlier chains and of the same chain before it loads cleanly) and
lets it fail either at the file read or at script evaluation. -/
theorem load_atomic_failure {T : Type} (env : Env T)
    (cpre : List (String × List FilterConfig)) (c : String)
    (fpre : List FilterConfig) (fc : FilterConfig) (fpost : List FilterConfig)
    (cpost : List (String × List FilterConfig)) (e : MluaError)
    (hok : ∀ fc' ∈ (cpre.map Prod.snd).flatten ++ fpre, ∃ l, loadOneScript env fc' = .ok l)
    (hfail : env.read_to_string fc.script = .error e ∨
      ∃ src, env.read_to_string fc.script = .ok src ∧ env.eval src = .error e) :
    FilterRuntime.load env ⟨cpre ++ (c, fpre ++ fc :: fpost) :: cpost⟩ = .error e := by
  have hfc : loadOneScript env fc = .error e := by
    rcases hfail with hr | ⟨src, hr, he⟩
    · simp only [loadOneScript, hr]
    · simp only [loadOneScript, hr, he]
  show (loadChainsGo env (FilterSystem.new T).filters
      (cpre ++ (c, fpre ++ fc :: fpost) :: cpost)).map FilterSystem.mk = .error e
  rw [loadChainsGo_flatten]
  have hsplit : (((cpre ++ (c, fpre ++ fc :: fpost) :: cpost).map Prod.snd).flatten)
      = ((cpre.map Prod.snd).flatten ++ fpre)
        ++ fc :: (fpost ++ (cpost.map Prod.snd).flatten) := by
    simp [List.append_assoc]
  rw [hsplit]
  rw [loadScriptGo_errorAt env ((cpre.map Prod.snd).flatten ++ fpre) fc
    (fpost ++ (cpost.map Prod.snd).flatten) _ e hok hfc]
  rfl

/-- Witness for C8: with one readable script in the first chain and a
missing script file in the second, the runtime's load fails with the
file-read error for the missing script. -/
theorem load_atomic_failure_witness :
    FilterRuntime.load cex8Env cex8Config = .error (.fileRead "missing.lua") := by
  refine load_atomic_failure cex8Env [("c1", [⟨"A", "good.lua"⟩])] "c2" []
      ⟨"B", "missing.lua"⟩ [] [] (.fileRead "missing.lua") ?_ (Or.inl rfl)
  intro fc' hfc'
  rcases List.mem_cons.mp hfc' with rfl | hfc''
  · exact ⟨[Filter.new "isTwo" demoFn], rfl⟩
  · cases hfc''

/-- The outer load loop only ever appends to the accumulated collection,
independently of what the accumulator holds. -/
theorem loadChainsGo_acc {T : Type} (env : Env T)
    (chains : List (String × List FilterConfig)) :
    ∀ fs, loadChainsGo env fs chains
        = (loadChainsGo env ([] : List (Filter T)) chains).map (fs ++ ·) := by
  induction chains with
  | nil => intro fs; simp [loadChainsGo, Except.map]
  | cons p rest ih =>
    obtain ⟨c, fcs⟩ := p
    intro fs
    rw [show loadChainsGo env fs ((c, fcs) :: rest)
        = match loadScriptGo env fs fcs with
          | .error e => .error e
          | .ok fs' => loadChainsGo env fs' rest from rfl]
    rw [show loadChainsGo env ([] : List (Filter T)) ((c, fcs) :: rest)
        = match loadScriptGo env ([] : List (Filter T)) fcs with
          | .error e => .error e
          | .ok fs' => loadChainsGo env fs' rest from rfl]
    rw [loadScriptGo_acc env fcs fs]
    cases hres : loadScriptGo env ([] : List (Filter T)) fcs with
    | error e => rfl
    | ok l =>
      show loadChainsGo env (fs ++ l) rest = (loadChainsGo env l rest).map (fs ++ ·)
      rw [ih (fs ++ l), ih l]
      cases loadChainsGo env ([] : List (Filter T)) rest with
      | error e => rfl
      | ok l2 => simp [Except.map, List.append_assoc]

/-- Claim C10: `FilterSystem::load` is append-only — a successful load
leaves every previously registered filter in place, in its original
position and order, and appends after them exactly the filters a fresh
load of the same configuration would produce, so loading a second
configuration accumulates filters rather than replacing them. -/
theorem load_append_only {T : Type} (env : Env T) (s : FilterSystem T) (config : Config)
    (sys : FilterSystem T) (h : FilterSystem.load env s config = .ok sys) :
    ∃ new, sys.filters = s.filters ++ new ∧ FilterRuntime.load env config = .ok ⟨new⟩ := by
  have h' : (loadChainsGo env s.filters config.chains).map FilterSystem.mk = .ok sys := h
  rw [loadChainsGo_acc env config.chains s.filters] at h'
  cases hres : loadChainsGo env ([] : List (Filter T)) config.chains with
  | error e => rw [hres] at h'; cases h'
  | ok new =>
    rw [hres] at h'
    have hsys : FilterSystem.mk (s.filters ++ new) = sys := by
      injection h' with h''
    refine ⟨new, ?_, ?_⟩
    · rw [← hsys]
    · show (loadChainsGo env (FilterSystem.new T).filters config.chains).map FilterSystem.mk
          = .ok ⟨new⟩
      rw [show (FilterSystem.new T).filters = ([] : List (Filter T)) from rfl, hres]
      rfl

/-- Witness for C10: loading the demonstration configuration on top of the
two-filter demonstration system keeps both existing filters in place and
appends exactly the filter a fresh load produces. -/
theorem load_append_only_witness :
    ∃ new, demoLoaded.filters = demoSys.filters ++ new ∧
      FilterRuntime.load demoEnv demoConfig = .ok ⟨new⟩ :=
  load_append_only demoEnv demoSys demoConfig demoLoaded rfl

/-!
Lemmas about the state-threading evaluation, for the side-effect claim.
-/

/-- With side-effect-free predicates the `filter_one` loop preserves the
interpreter state. -/
theorem lfilterOneGo_state {S T : Type} (r : T) (fs : List (LFilter S T))
    (hse : ∀ f ∈ fs, ∀ st v, (f.filter st v).2 = st) :
    ∀ (acc : Bool) (st : S), (lfilterOneGo r fs acc st).2 = st := by
  induction fs with
  | nil => intro acc st; rfl
  | cons f rest ih =>
    intro acc st
    have hf : (f.filter st r).2 = st := hse f (List.mem_cons_self _ _) st r
    cases hres : f.filter st r with
    | mk res st2 =>
      have hst : st2 = st := by rw [hres] at hf; exact hf
      cases res with
      | error e =>
        show (match f.filter st r with
              | (.error e, st') => ((.error e : Except MluaError Bool), st')
              | (.ok b, st') => lfilterOneGo r rest (acc || b) st').2 = st
        rw [hres]
        exact hst
      | ok b =>
        show (match f.filter st r with
              | (.error e, st') => ((.error e : Except MluaError Bool), st')
              | (.ok b, st') => lfilterOneGo r rest (acc || b) st').2 = st
        rw [hres]
        show (lfilterOneGo r rest (acc || b) st2).2 = st
        rw [ih (fun g hg => hse g (List.mem_cons_of_mem _ hg)) (acc || b) st2]
        exact hst

/-- With side-effect-free predicates the batch loop preserves the
interpreter state. -/
theorem lfilterGo_state {S T : Type} (s : LFilterSystem S T) (hse : sideEffectFree s)
    (values : List T) :
    ∀ (acc : List T) (st : S), (lfilterGo s acc values st).2 = st := by
  induction values with
  | nil => intro acc st; rfl
  | cons tx rest ih =>
    intro acc st
    have hone : (s.filter_one tx st).2 = st := lfilterOneGo_state tx s.filters hse false st
    cases hres : s.filter_one tx st with
    | mk res st2 =>
      have hst : st2 = st := by rw [hres] at hone; exact hone
      simp only [lfilterGo, hres]
      cases res with
      | error e => exact hst
      | ok b =>
        cases b with
        | true => rw [ih (acc ++ [tx]) st2]; exact hst
        | false => rw [ih acc st2]; exact hst

/-- Claim C9: for a filter system whose predicates have no script side
effects, the whole batch evaluation leaves the interpreter state
untouched, so re-running `filter` on the same system and input sequence
yields an identical output sequence. -/
theorem filter_idempotent_no_side_effects {S T : Type} (s : LFilterSystem S T)
    (values : List T) (st : S) (hse : sideEffectFree s) :
    (s.filter values (s.filter values st).2).1 = (s.filter values st).1 ∧
    (s.filter values st).2 = st := by
  have h2 : (s.filter values st).2 = st := lfilterGo_state s hse values [] st
  exact ⟨by rw [h2], h2⟩

/-- Witness for C9: the state-aware demonstration system is
side-effect-free, and re-running its batch evaluation from the state the
first run left behind returns the same output. -/
theorem filter_idempotent_no_side_effects_witness :
    (demoLSys.filter [0, 5] (demoLSys.filter [0, 5] 3).2).1 = (demoLSys.filter [0, 5] 3).1 ∧
    (demoLSys.filter [0, 5] 3).2 = 3 := by
  refine filter_idempotent_no_side_effects demoLSys [0, 5] 3 ?_
  intro f hf st r
  rcases List.mem_cons.mp hf with rfl | hf'
  · rfl
  · cases hf'

end Croncat
